import Mathlib

/-!
Verification of the nuke_modules core (src/fs.rs) against its specification.

Shallow embedding conventions:

* A filesystem path is a list of components (`List String`); the path of a
  directory entry is the parent path with the entry name appended, mirroring
  `dir_entry.path()`.
* `FileType` mirrors `std::fs::FileType` as observed through the two predicates
  the source consults, `is_dir` and `is_symlink` (fs.rs lines 85 and 206).
* `Entry` models one directory entry together with everything the walker could
  observe about it: `entErr` is true when `next_entry()` itself returns `Err`
  for this slot (the source logs and continues, skipping the entry); `ftype`
  is the result of `dir_entry.file_type().await` (`none` = error, entry
  skipped); `metaLen` is the result of `dir_entry.metadata().await` mapped to
  its length (`none` = error, contributes 0); `readable` and `children` record
  what `tokio::fs::read_dir` at this entry yields when the walker descends
  (`readable = false` means `read_dir` fails there).
* Semaphore permits: `Semaphore::close` is never called anywhere in the
  program, so `acquire_owned` never returns `Err`; permit acquisition is
  therefore modelled as always succeeding.  The nondeterministic completion
  order of `JoinSet::join_next` is modelled by the spawn order, which is
  adequate for the stated claims (record counts, sums, and per-index writes
  are order independent).
-/

/-- Mirrors the two predicates of std FileType that fs.rs consults. -/
structure FileType where
  is_dir : Bool
  is_symlink : Bool
deriving DecidableEq, Repr

/-- One directory entry and every observation the walker can make of it. -/
inductive Entry : Type where
  | mk (name : String) (entErr : Bool) (ftype : Option FileType)
      (metaLen : Option Nat) (readable : Bool) (children : List Entry) : Entry
deriving Repr

def Entry.name : Entry → String
  | .mk n _ _ _ _ _ => n

def Entry.entErr : Entry → Bool
  | .mk _ b _ _ _ _ => b

def Entry.ftype : Entry → Option FileType
  | .mk _ _ t _ _ _ => t

def Entry.metaLen : Entry → Option Nat
  | .mk _ _ _ m _ _ => m

def Entry.readable : Entry → Bool
  | .mk _ _ _ _ r _ => r

def Entry.children : Entry → List Entry
  | .mk _ _ _ _ _ c => c

/-- Modelled from the spec: the file src/node_modules.rs is not present in the
sources; the spec (section 3, NodeModulesRecord) gives the record as a path to
a directory named node_modules plus an optional unsigned size, unset until the
Size Aggregator runs.  Field names follow the uses in fs.rs (`path`, `size`). -/
structure NodeModules where
  path : List String
  size : Option Nat
deriving DecidableEq, Repr

/-- Modelled from the spec: `NodeModules::new` (fs.rs line 217) creates a
record with the given path and the size unset. -/
def NodeModules.new (p : List String) : NodeModules :=
  { path := p, size := none }

/-- fs.rs line 158. -/
def NODE_MODULES : String := "node_modules"

/-- Sum over one directory level of `calc_dir_size` (fs.rs lines 54-105): the
loop body contribution of each entry plus the joined child results.  An entry
whose `next_entry()` read failed is skipped (lines 61-64); otherwise its
metadata length is added regardless of type, 0 on metadata error (lines
67-71); a file-type error skips the rest (lines 73-82); non-directories and
symlinked directories are not descended (lines 84-87); a directory child is
walked recursively (lines 89-91), and a failed child (its own `read_dir`
failed, lines 51-53) contributes 0 at the join (line 100). -/
def calcDirSizeEntries : List Entry → Nat
  | [] => 0
  | .mk _ entErr ftype metaLen readable children :: es =>
    (if entErr then 0
     else
       metaLen.getD 0 +
         (match ftype with
          | none => 0
          | some ft =>
            if ft.is_dir && !ft.is_symlink then
              if readable then calcDirSizeEntries children else 0
            else 0)) +
      calcDirSizeEntries es

/-- The `calc_dir_size` entry point (fs.rs lines 41-106): fails with a
DirectoryReadError when `read_dir` on the start path fails (lines 51-53),
otherwise returns the level sum. -/
def calc_dir_size (readable : Bool) (entries : List Entry) : Except String Nat :=
  if readable then .ok (calcDirSizeEntries entries)
  else .error "Failed to read directory when attempting to calculate size"

/-- How each caller of `calc_dir_size` consumes it: `unwrap_or(0)` at fs.rs
line 21 and the 0 contribution at line 100; this is the size_of entry point
of spec section 4.4. -/
def size_of (readable : Bool) (entries : List Entry) : Nat :=
  match calc_dir_size readable entries with
  | .ok n => n
  | .error _ => 0

/-- Direct matches of one finder level (fs.rs lines 181-225, the pushes at
line 217): entries named node_modules that are real non-symlink directories,
recorded in entry order with the size unset, not descended into. -/
def findOwn (p : List String) : List Entry → List NodeModules
  | [] => []
  | .mk name entErr ftype _ _ _ :: es =>
    (if entErr then []
     else
       match ftype with
       | none => []
       | some ft =>
         if ft.is_dir && !ft.is_symlink then
           if name == NODE_MODULES then [NodeModules.new (p ++ [name])] else []
         else []) ++
      findOwn p es

/-- Joined child results of one finder level (fs.rs lines 222-234): every
real non-symlink directory not named node_modules is walked recursively; a
child whose own `read_dir` failed contributes nothing at the join (line
231). -/
def findChildren (p : List String) : List Entry → List NodeModules
  | [] => []
  | .mk name entErr ftype _ readable children :: es =>
    (if entErr then []
     else
       match ftype with
       | none => []
       | some ft =>
         if ft.is_dir && !ft.is_symlink then
           if name == NODE_MODULES then []
           else if readable then
             findOwn (p ++ [name]) children ++ findChildren (p ++ [name]) children
           else []
         else []) ++
      findChildren p es

/-- The `find_node_modules_inner` entry point (fs.rs lines 160-237): fails
with a DirectoryReadError when `read_dir` on the start path fails (lines
177-179), otherwise returns the direct matches followed by the joined child
results (lines 228-236). -/
def find_node_modules_inner (p : List String) (readable : Bool)
    (entries : List Entry) : Except String (List NodeModules) :=
  if readable then .ok (findOwn p entries ++ findChildren p entries)
  else .error "Failed to read directory"

/-- The public `find_node_modules` (fs.rs lines 147-156): builds the semaphore
and delegates to the inner walker on the start path. -/
def find_node_modules (p : List String) (readable : Bool)
    (entries : List Entry) : Except String (List NodeModules) :=
  find_node_modules_inner p readable entries

/-- Follows the words of spec section 8 for claim C2 (not the source): the
sum of the byte lengths of all files, at any depth, under the path — files
only, descending through subdirectories. -/
def fileBytesSpec : List Entry → Nat
  | [] => 0
  | .mk _ _ ftype metaLen _ children :: es =>
    (match ftype with
     | none => 0
     | some ft =>
       if ft.is_dir && !ft.is_symlink then fileBytesSpec children
       else if !ft.is_dir && !ft.is_symlink then metaLen.getD 0
       else 0) +
      fileBytesSpec es

/-- Sum of the metadata-reported byte lengths of every entry, of any type, at
any depth under the path (entries whose metadata cannot be read count 0);
the contents of symlinked directories are not reachable by the walk and are
not counted.  This is the spec-level total of the amended claim C2. -/
def allEntryBytes : List Entry → Nat
  | [] => 0
  | .mk _ _ ftype metaLen _ children :: es =>
    (metaLen.getD 0 +
      (match ftype with
       | none => 0
       | some ft =>
         if ft.is_dir && !ft.is_symlink then allEntryBytes children
         else 0)) +
      allEntryBytes es

/-- A directory listing free of read errors: no entry read fails, every file
type resolves, and every real (non-symlink) subdirectory is readable with
error-free contents.  Metadata lengths are unconstrained. -/
def cleanEntries : List Entry → Bool
  | [] => true
  | .mk _ entErr ftype _ readable children :: es =>
    (!entErr &&
      (match ftype with
       | none => false
       | some ft =>
         if ft.is_dir && !ft.is_symlink then readable && cleanEntries children
         else true)) &&
      cleanEntries es

/-- Follows the words of claim C1: the number of directories named
node_modules on non-overlapping branches, counting only the topmost one on
each branch (a node_modules nested inside another is not counted). -/
def countTopNM : List Entry → Nat
  | [] => 0
  | .mk name _ ftype _ _ children :: es =>
    (match ftype with
     | none => 0
     | some ft =>
       if ft.is_dir && !ft.is_symlink then
         if name == NODE_MODULES then 1 else countTopNM children
       else 0) +
      countTopNM es

/-- The set of directories currently existing on disk, as a list of paths;
a directory tree rooted at p is present exactly when p is in the list. -/
abbrev Disk := List (List String)

/-- Models `tokio::fs::remove_dir_all` (fs.rs line 125): succeeds exactly
when the directory exists, removing it and every directory below it. -/
def remove_dir_all (disk : Disk) (p : List String) : Except String Disk :=
  if disk.contains p then
    .ok (disk.filter (fun q => !(List.isPrefixOf p q)))
  else .error "Failed to remove node_modules"

/-- The `nuke_node_modules` entry point (fs.rs lines 108-145): one bounded
task per record, each removing its tree; a successful removal contributes the
recorded size (0 if unset, line 118), a failed one is logged and contributes
0 at the join (line 139).  The concurrent tasks are modelled in spawn order;
the disk state is threaded through. -/
def nuke_node_modules : Disk → List NodeModules → Nat × Disk
  | disk, [] => (0, disk)
  | disk, r :: rs =>
    match remove_dir_all disk r.path with
    | .ok disk2 =>
      let rest := nuke_node_modules disk2 rs
      (r.size.getD 0 + rest.1, rest.2)
    | .error _ => nuke_node_modules disk rs

/-- Joined tasks of `calc_node_modules_sizes` (fs.rs lines 10-38): one task
per record, numbered by original index `i`, all sharing one semaphore, each
computing `calc_dir_size(path).unwrap_or(0)` (line 21); on join, the result
is written into the record slot keyed by the original index and added to the
total (lines 29-31); a join failure is logged, leaving the slot unwritten
and adding nothing (line 33).  `fsAt` gives the filesystem at each path
(readability of the root and its entries); `joinFail` tells which spawned
tasks fail to join. -/
def sizeJoin (fsAt : List String → Bool × List Entry) (joinFail : Nat → Bool) :
    Nat → List NodeModules → List NodeModules × Nat
  | _, [] => ([], 0)
  | i, r :: rs =>
    let rest := sizeJoin fsAt joinFail (i + 1) rs
    if joinFail i then (r :: rest.1, rest.2)
    else ({ r with size := some (size_of (fsAt r.path).1 (fsAt r.path).2) } :: rest.1,
          size_of (fsAt r.path).1 (fsAt r.path).2 + rest.2)

/-- The public entry point: tasks are numbered from index 0. -/
def calc_node_modules_sizes (fsAt : List String → Bool × List Entry)
    (joinFail : Nat → Bool) (records : List NodeModules) :
    List NodeModules × Nat :=
  sizeJoin fsAt joinFail 0 records

theorem Entry.sizeOf_children_lt (e : Entry) : sizeOf e.children < sizeOf e := by
  cases e with
  | mk n b t m r c => simp [Entry.children]

/-- Induction over directory listings: the step may assume the property both
for the entry's children and for the remaining entries of the level. -/
theorem entriesInduction (P : List Entry → Prop) (h0 : P [])
    (h1 : ∀ e es, P (Entry.children e) → P es → P (e :: es)) : ∀ es, P es := by
  have key : ∀ n es, sizeOf es ≤ n → P es := by
    intro n
    induction n with
    | zero =>
      intro es h
      cases es with
      | nil => exact h0
      | cons e es => simp at h
    | succ n ih =>
      intro es h
      cases es with
      | nil => exact h0
      | cons e es =>
        simp only [List.cons.sizeOf_spec] at h
        have hc := Entry.sizeOf_children_lt e
        exact h1 e es (ih _ (by omega)) (ih _ (by omega))
  intro es
  exact key (sizeOf es) es le_rfl

/-! Step equations for the recursive walks, unfolding one level; the
well-founded definitions above do not unfold definitionally. -/

theorem calcDirSizeEntries_nil : calcDirSizeEntries [] = 0 := by
  rw [calcDirSizeEntries.eq_def]

theorem calcDirSizeEntries_cons (n : String) (b : Bool) (t : Option FileType)
    (m : Option Nat) (r : Bool) (c es : List Entry) :
    calcDirSizeEntries (Entry.mk n b t m r c :: es) =
      (if b then 0
       else
         m.getD 0 +
           (match t with
            | none => 0
            | some ft =>
              if ft.is_dir && !ft.is_symlink then
                if r then calcDirSizeEntries c else 0
              else 0)) +
        calcDirSizeEntries es := by
  rw [calcDirSizeEntries.eq_def]

theorem findOwn_nil (p : List String) : findOwn p [] = [] := by
  rw [findOwn.eq_def]

theorem findOwn_cons (p : List String) (n : String) (b : Bool)
    (t : Option FileType) (m : Option Nat) (r : Bool) (c es : List Entry) :
    findOwn p (Entry.mk n b t m r c :: es) =
      (if b then []
       else
         match t with
         | none => []
         | some ft =>
           if ft.is_dir && !ft.is_symlink then
             if n == NODE_MODULES then [NodeModules.new (p ++ [n])] else []
           else []) ++
        findOwn p es := by
  rw [findOwn.eq_def]

theorem findChildren_nil (p : List String) : findChildren p [] = [] := by
  rw [findChildren.eq_def]

theorem findChildren_cons (p : List String) (n : String) (b : Bool)
    (t : Option FileType) (m : Option Nat) (r : Bool) (c es : List Entry) :
    findChildren p (Entry.mk n b t m r c :: es) =
      (if b then []
       else
         match t with
         | none => []
         | some ft =>
           if ft.is_dir && !ft.is_symlink then
             if n == NODE_MODULES then []
             else if r then
               findOwn (p ++ [n]) c ++ findChildren (p ++ [n]) c
             else []
           else []) ++
        findChildren p es := by
  rw [findChildren.eq_def]

theorem fileBytesSpec_nil : fileBytesSpec [] = 0 := by
  rw [fileBytesSpec.eq_def]

theorem fileBytesSpec_cons (n : String) (b : Bool) (t : Option FileType)
    (m : Option Nat) (r : Bool) (c es : List Entry) :
    fileBytesSpec (Entry.mk n b t m r c :: es) =
      (match t with
       | none => 0
       | some ft =>
         if ft.is_dir && !ft.is_symlink then fileBytesSpec c
         else if !ft.is_dir && !ft.is_symlink then m.getD 0
         else 0) +
        fileBytesSpec es := by
  rw [fileBytesSpec.eq_def]

theorem allEntryBytes_nil : allEntryBytes [] = 0 := by
  rw [allEntryBytes.eq_def]

theorem allEntryBytes_cons (n : String) (b : Bool) (t : Option FileType)
    (m : Option Nat) (r : Bool) (c es : List Entry) :
    allEntryBytes (Entry.mk n b t m r c :: es) =
      (m.getD 0 +
        (match t with
         | none => 0
         | some ft =>
           if ft.is_dir && !ft.is_symlink then allEntryBytes c
           else 0)) +
        allEntryBytes es := by
  rw [allEntryBytes.eq_def]

theorem cleanEntries_nil : cleanEntries [] = true := by
  rw [cleanEntries.eq_def]

theorem cleanEntries_cons (n : String) (b : Bool) (t : Option FileType)
    (m : Option Nat) (r : Bool) (c es : List Entry) :
    cleanEntries (Entry.mk n b t m r c :: es) =
      ((!b &&
        (match t with
         | none => false
         | some ft =>
           if ft.is_dir && !ft.is_symlink then r && cleanEntries c
           else true)) &&
        cleanEntries es) := by
  rw [cleanEntries.eq_def]

theorem countTopNM_nil : countTopNM [] = 0 := by
  rw [countTopNM.eq_def]

theorem countTopNM_cons (n : String) (b : Bool) (t : Option FileType)
    (m : Option Nat) (r : Bool) (c es : List Entry) :
    countTopNM (Entry.mk n b t m r c :: es) =
      (match t with
       | none => 0
       | some ft =>
         if ft.is_dir && !ft.is_symlink then
           if n == NODE_MODULES then 1 else countTopNM c
         else 0) +
        countTopNM es := by
  rw [countTopNM.eq_def]

/-- A regular file entry with the given metadata length. -/
def fileE (n : String) (len : Nat) : Entry :=
  .mk n false (some ⟨false, false⟩) (some len) true []

/-- A readable subdirectory entry with the given metadata length and
contents. -/
def dirE (n : String) (len : Nat) (cs : List Entry) : Entry :=
  .mk n false (some ⟨true, false⟩) (some len) true cs

/-- Renames an entry, leaving every other observation unchanged. -/
def Entry.withName : Entry → String → Entry
  | .mk _ b t m r c, n => .mk n b t m r c

/-- C3: size_of never fails outright: its result type is a number, an
unreadable root yields 0 (first conjunct), an unreadable subdirectory
degrades to its own metadata length with a zero subtree (second), an entry
whose metadata cannot be read contributes 0 for its length (third), and an
entry whose directory read fails is skipped entirely (fourth). -/
theorem size_of_total_degrades_errors :
    (∀ es, size_of false es = 0) ∧
    (∀ n ml ch es,
      calcDirSizeEntries (Entry.mk n false (some ⟨true, false⟩) ml false ch :: es) =
        ml.getD 0 + calcDirSizeEntries es) ∧
    (∀ n sl rd ch es,
      calcDirSizeEntries (Entry.mk n false (some ⟨false, sl⟩) none rd ch :: es) =
        calcDirSizeEntries es) ∧
    (∀ n ft ml rd ch es,
      calcDirSizeEntries (Entry.mk n true ft ml rd ch :: es) =
        calcDirSizeEntries es) := by
  refine ⟨?_, ?_, ?_, ?_⟩ <;> intros <;>
    simp [size_of, calc_dir_size, calcDirSizeEntries_cons]

/-- C6: during size aggregation, at every level: the walk never consults an
entry name, so every subdirectory is descended into unconditionally, with no
stopping at node_modules (first conjunct); an entry contributes its metadata
length before any classification, regardless of type and 0 on metadata
error, plus the degraded-to-0-on-failure result of its subtree (second); the
level combines by sum (third). -/
theorem calc_size_level_behaviour :
    (∀ e n es, calcDirSizeEntries (e.withName n :: es) = calcDirSizeEntries (e :: es)) ∧
    (∀ n ft ml rd ch es,
      calcDirSizeEntries (Entry.mk n false ft ml rd ch :: es) =
        (ml.getD 0 +
          (match ft with
           | none => 0
           | some t => if t.is_dir && !t.is_symlink then size_of rd ch else 0)) +
          calcDirSizeEntries es) ∧
    (∀ xs ys, calcDirSizeEntries (xs ++ ys) =
      calcDirSizeEntries xs + calcDirSizeEntries ys) := by
  refine ⟨?_, ?_, ?_⟩
  · intro e n es
    cases e with
    | mk nm b t m r c => simp [Entry.withName, calcDirSizeEntries_cons]
  · intro n ft ml rd ch es
    cases ft with
    | none => simp [calcDirSizeEntries_cons]
    | some t =>
      cases rd <;> simp [calcDirSizeEntries_cons, size_of, calc_dir_size]
  · intro xs ys
    induction xs with
    | nil => simp [calcDirSizeEntries_nil]
    | cons e xs ih =>
      cases e with
      | mk nm b t m r c => simp [calcDirSizeEntries_cons, ih]; omega

/-- C9: in both the finder walk and the size walk, an entry that is not a
directory, or that is a symlinked directory, is never recorded as a match
and never descended into: it adds no record to either part of the finder
result and contributes at most its own metadata length to the size. -/
theorem non_dirs_never_followed :
    ∀ p ft e es, e.ftype = some ft → (ft.is_dir = false ∨ ft.is_symlink = true) →
      findOwn p (e :: es) = findOwn p es ∧
      findChildren p (e :: es) = findChildren p es ∧
      calcDirSizeEntries (e :: es) =
        (if e.entErr then 0 else e.metaLen.getD 0) + calcDirSizeEntries es := by
  intro p ft e es hf hd
  cases e with
  | mk nm b t m r c =>
    simp only [Entry.ftype] at hf
    subst hf
    have hda : (ft.is_dir && !ft.is_symlink) = false := by
      rcases hd with h | h <;> simp [h]
    cases b <;>
      simp [findOwn_cons, findChildren_cons, calcDirSizeEntries_cons, hda,
        Entry.entErr, Entry.metaLen]

/-- Witness for C9 at a symlinked directory named node_modules holding a
100-byte file: no record, no descent, only its own 7 metadata bytes. -/
theorem non_dirs_never_followed_witness :
    findOwn ["r"] [Entry.mk "node_modules" false (some ⟨true, true⟩) (some 7) true
        [fileE "x" 100]] = [] ∧
    findChildren ["r"] [Entry.mk "node_modules" false (some ⟨true, true⟩) (some 7) true
        [fileE "x" 100]] = [] ∧
    calcDirSizeEntries [Entry.mk "node_modules" false (some ⟨true, true⟩) (some 7) true
        [fileE "x" 100]] = 7 := by
  have h := non_dirs_never_followed ["r"] ⟨true, true⟩
    (Entry.mk "node_modules" false (some ⟨true, true⟩) (some 7) true [fileE "x" 100]) []
    (by simp [Entry.ftype]) (Or.inr rfl)
  refine ⟨?_, ?_, ?_⟩
  · rw [h.1]; simp [findOwn_nil]
  · rw [h.2.1]; simp [findChildren_nil]
  · rw [h.2.2]; simp [calcDirSizeEntries_nil, Entry.entErr, Entry.metaLen]

/-- C4: find returns an error exactly when the starting directory cannot be
opened (first conjunct); a directory below the start whose own read fails is
recovered locally, contributing an empty result to both parts of the level
while the level itself succeeds (second conjunct). -/
theorem find_fails_only_at_root :
    (∀ p b es, (∃ l, find_node_modules p b es = Except.ok l) ↔ b = true) ∧
    (∀ p n ml ch es, (n == NODE_MODULES) = false →
      findOwn p (Entry.mk n false (some ⟨true, false⟩) ml false ch :: es) =
        findOwn p es ∧
      findChildren p (Entry.mk n false (some ⟨true, false⟩) ml false ch :: es) =
        findChildren p es) := by
  constructor
  · intro p b es
    cases b <;> simp [find_node_modules, find_node_modules_inner]
  · intro p n ml ch es h
    constructor <;> simp [findOwn_cons, findChildren_cons, h]

/-- Witness for C4 at an unreadable directory named src holding a
node_modules: the branch contributes nothing while the level succeeds. -/
theorem find_fails_only_at_root_witness :
    findOwn ["r"] [Entry.mk "src" false (some ⟨true, false⟩) (some 9) false
        [dirE "node_modules" 0 []]] = [] ∧
    findChildren ["r"] [Entry.mk "src" false (some ⟨true, false⟩) (some 9) false
        [dirE "node_modules" 0 []]] = [] ∧
    (∃ l, find_node_modules ["r"] true
        [Entry.mk "src" false (some ⟨true, false⟩) (some 9) false
          [dirE "node_modules" 0 []]] = Except.ok l) := by
  have h := find_fails_only_at_root.2 ["r"] "src" (some 9)
    [dirE "node_modules" 0 []] [] (by decide)
  refine ⟨?_, ?_, ?_⟩
  · rw [h.1]; simp [findOwn_nil]
  · rw [h.2]; simp [findChildren_nil]
  · exact (find_fails_only_at_root.1 ["r"] true _).mpr rfl

/-- Every record produced by one finder level lies strictly below the walked
path: its path extends the walked path by at least one component. -/
theorem findRecords_below :
    ∀ es, ∀ p r, (r ∈ findOwn p es → ∃ q, q ≠ [] ∧ r.path = p ++ q) ∧
      (r ∈ findChildren p es → ∃ q, q ≠ [] ∧ r.path = p ++ q) := by
  intro es
  induction es using entriesInduction with
  | h0 =>
    intro p r
    constructor <;> intro h <;> simp [findOwn_nil, findChildren_nil] at h
  | h1 e es ihc iht =>
    intro p r
    cases e with
    | mk n b t m rd c =>
      simp only [Entry.children] at ihc
      constructor
      · intro h
        rw [findOwn_cons] at h
        rcases List.mem_append.mp h with h | h
        · split at h
          · simp at h
          · split at h
            · simp at h
            · split at h
              · split at h
                · simp at h
                  exact ⟨[n], by simp, by simp [h, NodeModules.new]⟩
                · simp at h
              · simp at h
        · exact (iht p r).1 h
      · intro h
        rw [findChildren_cons] at h
        rcases List.mem_append.mp h with h | h
        · split at h
          · simp at h
          · split at h
            · simp at h
            · split at h
              · split at h
                · simp at h
                · split at h
                  · rcases List.mem_append.mp h with h | h
                    · obtain ⟨q, hq, hpath⟩ := (ihc (p ++ [n]) r).1 h
                      exact ⟨[n] ++ q, by simp, by simp [hpath]⟩
                    · obtain ⟨q, hq, hpath⟩ := (ihc (p ++ [n]) r).2 h
                      exact ⟨[n] ++ q, by simp, by simp [hpath]⟩
                  · simp at h
              · simp at h
        · exact (iht p r).2 h

/-- C10: find never tests the name of the starting directory itself: for any
start path, in particular one whose final component is node_modules, a
successful find returns only records lying strictly below the start path, so
no record is ever created for the start path itself. -/
theorem find_start_never_recorded :
    ∀ p es l, find_node_modules p true es = Except.ok l →
      ∀ r, r ∈ l → p <+: r.path ∧ p.length < r.path.length := by
  intro p es l hl r hr
  have hl2 : findOwn p es ++ findChildren p es = l := by
    simpa [find_node_modules, find_node_modules_inner] using hl
  rw [← hl2] at hr
  have key : ∃ q, q ≠ [] ∧ r.path = p ++ q := by
    rcases List.mem_append.mp hr with h | h
    · exact (findRecords_below es p r).1 h
    · exact (findRecords_below es p r).2 h
  obtain ⟨q, hq, hpath⟩ := key
  refine ⟨⟨q, hpath.symm⟩, ?_⟩
  have : 0 < q.length := List.length_pos.mpr hq
  simp [hpath]
  omega

/-- Witness for C10: starting inside a directory already named node_modules,
find still descends and records only the node_modules strictly below. -/
theorem find_start_never_recorded_witness :
    ["root", "node_modules"] <+:
      (NodeModules.new ["root", "node_modules", "a", "node_modules"]).path ∧
    (["root", "node_modules"] : List String).length <
      (NodeModules.new ["root", "node_modules", "a", "node_modules"]).path.length := by
  apply find_start_never_recorded ["root", "node_modules"]
      [dirE "a" 0 [dirE "node_modules" 0 []]]
      [NodeModules.new ["root", "node_modules", "a", "node_modules"]]
  · simp [find_node_modules, find_node_modules_inner, findOwn_cons, findOwn_nil,
      findChildren_cons, findChildren_nil, dirE, NODE_MODULES, NodeModules.new]
  · simp

/-- On an error-free level, the number of records found equals the number of
topmost node_modules directories reachable from it. -/
theorem findCount_clean :
    ∀ es, cleanEntries es = true → ∀ p,
      (findOwn p es).length + (findChildren p es).length = countTopNM es := by
  intro es
  induction es using entriesInduction with
  | h0 => intro _ p; simp [findOwn_nil, findChildren_nil, countTopNM_nil]
  | h1 e es ihc iht =>
    intro hcl p
    cases e with
    | mk n b t m rd c =>
      simp only [Entry.children] at ihc
      rw [cleanEntries_cons] at hcl
      simp only [Bool.and_eq_true, Bool.not_eq_true'] at hcl
      obtain ⟨⟨hb, hX⟩, hes⟩ := hcl
      subst hb
      rw [findOwn_cons, findChildren_cons, countTopNM_cons]
      cases t with
      | none => simp at hX
      | some ft =>
        obtain ⟨fd, fs⟩ := ft
        cases fd with
        | false => simpa using iht hes p
        | true =>
          cases fs with
          | true => simpa using iht hes p
          | false =>
            simp at hX
            obtain ⟨hrd, hc⟩ := hX
            subst hrd
            by_cases hn : (n == NODE_MODULES) = true
            · simp [hn]
              have := iht hes p
              omega
            · simp [hn]
              have h1 := ihc hc (p ++ [n])
              have h2 := iht hes p
              omega

/-- C1: on a tree whose walked region is free of read errors, find returns
exactly one record per node_modules directory on a non-overlapping (topmost)
branch (first conjunct); and a branch whose root is itself a node_modules
directory yields exactly one record no matter what it contains — nested
node_modules inside it are not discovered, because a matched directory is
recorded and never descended into (second conjunct). -/
theorem find_returns_k_records :
    (∀ p es, cleanEntries es = true →
      ∃ l, find_node_modules p true es = Except.ok l ∧ l.length = countTopNM es) ∧
    (∀ p ml rd ch,
      find_node_modules p true
          [Entry.mk NODE_MODULES false (some ⟨true, false⟩) ml rd ch] =
        Except.ok [NodeModules.new (p ++ [NODE_MODULES])]) := by
  constructor
  · intro p es hcl
    refine ⟨findOwn p es ++ findChildren p es,
      by simp [find_node_modules, find_node_modules_inner], ?_⟩
    rw [List.length_append]
    exact findCount_clean es hcl p
  · intro p ml rd ch
    simp [find_node_modules, find_node_modules_inner, findOwn_cons, findOwn_nil,
      findChildren_cons, findChildren_nil]

/-- Witness for C1: a tree with two topmost node_modules, one of which holds
a further nested node_modules, yields exactly countTopNM records, and the
count evaluates to 2. -/
theorem find_returns_k_records_witness :
    (∃ l, find_node_modules [] true
        [dirE "a" 0 [dirE "node_modules" 0 [dirE "node_modules" 0 []]],
          dirE "node_modules" 0 []] = Except.ok l ∧
      l.length = countTopNM
        [dirE "a" 0 [dirE "node_modules" 0 [dirE "node_modules" 0 []]],
          dirE "node_modules" 0 []]) ∧
    countTopNM [dirE "a" 0 [dirE "node_modules" 0 [dirE "node_modules" 0 []]],
      dirE "node_modules" 0 []] = 2 := by
  constructor
  · apply find_returns_k_records.1
    simp [cleanEntries_cons, cleanEntries_nil, dirE]
  · simp [countTopNM_cons, countTopNM_nil, dirE, NODE_MODULES]

/-- C2 counterexample: a readable, error-free tree holding no files at all,
just one empty subdirectory whose metadata reports 4096 bytes: the sum of
file byte lengths under the root is 0, yet calc_dir_size returns 4096,
because the walk adds the metadata length of every entry, directories
included. -/
theorem size_counts_directory_metadata :
    cleanEntries [dirE "sub" 4096 []] = true ∧
    fileBytesSpec [dirE "sub" 4096 []] = 0 ∧
    calc_dir_size true [dirE "sub" 4096 []] = Except.ok 4096 ∧
    size_of true [dirE "sub" 4096 []] = 4096 := by
  refine ⟨?_, ?_, ?_, ?_⟩ <;>
    simp [cleanEntries_cons, cleanEntries_nil, fileBytesSpec_cons,
      fileBytesSpec_nil, calc_dir_size, size_of, calcDirSizeEntries_cons,
      calcDirSizeEntries_nil, dirE]

/-- On an error-free level the walk total is the metadata sum of all entries. -/
theorem calc_eq_allEntryBytes :
    ∀ es, cleanEntries es = true → calcDirSizeEntries es = allEntryBytes es := by
  intro es
  induction es using entriesInduction with
  | h0 => intro _; simp [calcDirSizeEntries_nil, allEntryBytes_nil]
  | h1 e es ihc iht =>
    intro hcl
    cases e with
    | mk n b t m rd c =>
      simp only [Entry.children] at ihc
      rw [cleanEntries_cons] at hcl
      simp only [Bool.and_eq_true, Bool.not_eq_true'] at hcl
      obtain ⟨⟨hb, hX⟩, hes⟩ := hcl
      subst hb
      rw [calcDirSizeEntries_cons, allEntryBytes_cons]
      cases t with
      | none => simp at hX
      | some ft =>
        obtain ⟨fd, fs⟩ := ft
        cases fd with
        | false => simp [iht hes]
        | true =>
          cases fs with
          | true => simp [iht hes]
          | false =>
            simp at hX
            obtain ⟨hrd, hc⟩ := hX
            subst hrd
            simp [iht hes, ihc hc]

/-- C2 amended: for every tree whose walked region is readable without
errors, size_of returns the sum of the metadata-reported byte lengths of all
entries, files and directories alike, at any depth under the path; an entry
whose metadata cannot be read contributes 0 to that sum (so for a tree with
one such unreadable file the result is the sum minus that file's length),
and the call does not fail. -/
theorem size_of_sums_entry_metadata :
    ∀ es, cleanEntries es = true →
      calc_dir_size true es = Except.ok (allEntryBytes es) ∧
      size_of true es = allEntryBytes es := by
  intro es hcl
  constructor
  · simp [calc_dir_size, calc_eq_allEntryBytes es hcl]
  · simp [size_of, calc_dir_size, calc_eq_allEntryBytes es hcl]

/-- Witness for C2 as amended: a tree with a 100-byte file, one file whose
metadata cannot be read, and a 10-byte subdirectory holding a 5-byte file:
the total is 115, the unreadable file contributing 0. -/
theorem size_of_sums_entry_metadata_witness :
    allEntryBytes [fileE "a" 100,
        Entry.mk "bad" false (some ⟨false, false⟩) none true [],
        dirE "s" 10 [fileE "b" 5]] = 115 ∧
    calc_dir_size true [fileE "a" 100,
        Entry.mk "bad" false (some ⟨false, false⟩) none true [],
        dirE "s" 10 [fileE "b" 5]] = Except.ok 115 := by
  have h := (size_of_sums_entry_metadata
    [fileE "a" 100, Entry.mk "bad" false (some ⟨false, false⟩) none true [],
      dirE "s" 10 [fileE "b" 5]]
    (by simp [cleanEntries_cons, cleanEntries_nil, fileE, dirE])).1
  have hv : allEntryBytes [fileE "a" 100,
      Entry.mk "bad" false (some ⟨false, false⟩) none true [],
      dirE "s" 10 [fileE "b" 5]] = 115 := by
    simp [allEntryBytes_cons, allEntryBytes_nil, fileE, dirE]
  exact ⟨hv, by rw [h, hv]⟩

/-- Removal of an existing tree succeeds and filters out every path below
it. -/
theorem remove_dir_all_ok (d : Disk) (p : List String) (h : p ∈ d) :
    remove_dir_all d p =
      Except.ok (d.filter (fun q => !(List.isPrefixOf p q))) := by
  simp [remove_dir_all, h]

/-- Removal of an absent tree fails. -/
theorem remove_dir_all_err (d : Disk) (p : List String) (h : p ∉ d) :
    ∃ e, remove_dir_all d p = Except.error e := by
  simp [remove_dir_all, h]

/-- The deletion batch only ever removes paths from the disk, never adds
any. -/
theorem nuke_disk_subset :
    ∀ rs (d : Disk) q, q ∈ (nuke_node_modules d rs).2 → q ∈ d := by
  intro rs
  induction rs with
  | nil => intro d q h; simpa [nuke_node_modules] using h
  | cons r rs ih =>
    intro d q h
    cases hrem : remove_dir_all d r.path with
    | ok d2 =>
      rw [nuke_node_modules, hrem] at h
      simp only at h
      have hd2 : d2 = d.filter (fun q => !(List.isPrefixOf r.path q)) := by
        by_cases hc : r.path ∈ d
        · rw [remove_dir_all_ok d r.path hc] at hrem
          exact (Except.ok.inj hrem).symm
        · obtain ⟨e, he⟩ := remove_dir_all_err d r.path hc
          rw [he] at hrem
          cases hrem
      have hq2 : q ∈ d2 := ih d2 q h
      rw [hd2] at hq2
      exact (List.mem_filter.mp hq2).1
    | error e =>
      rw [nuke_node_modules, hrem] at h
      exact ih d q h

/-- A batch over records none of which still exists deletes nothing and
returns 0. -/
theorem nuke_all_missing :
    ∀ rs (d : Disk), (∀ r ∈ rs, r.path ∉ d) →
      nuke_node_modules d rs = (0, d) := by
  intro rs
  induction rs with
  | nil => intro d _; rw [nuke_node_modules]
  | cons r rs ih =>
    intro d h
    obtain ⟨e, he⟩ := remove_dir_all_err d r.path (h r (by simp))
    rw [nuke_node_modules, he]
    exact ih d (fun s hs => h s (by simp [hs]))

/-- Totals and removals of one deletion batch over existing, pairwise
non-overlapping trees. -/
theorem nuke_go :
    ∀ rs (d : Disk),
      (∀ r ∈ rs, r.path ∈ d) →
      rs.Pairwise (fun a b => ¬ a.path <+: b.path ∧ ¬ b.path <+: a.path) →
      (nuke_node_modules d rs).1 = (rs.map (fun r => r.size.getD 0)).sum ∧
      (∀ r ∈ rs, r.path ∉ (nuke_node_modules d rs).2) := by
  intro rs
  induction rs with
  | nil => intro d _ _; simp [nuke_node_modules]
  | cons r rs ih =>
    intro d h hp
    have hmem : r.path ∈ d := h r (by simp)
    have hrem := remove_dir_all_ok d r.path hmem
    rw [List.pairwise_cons] at hp
    obtain ⟨hhead, htail⟩ := hp
    have hsub : ∀ s ∈ rs, s.path ∈
        d.filter (fun q => !(List.isPrefixOf r.path q)) := by
      intro s hs
      refine List.mem_filter.mpr ⟨h s (by simp [hs]), ?_⟩
      have hnp : ¬ r.path <+: s.path := (hhead s hs).1
      simp only [Bool.not_eq_true']
      exact Bool.eq_false_iff.mpr
        (fun hb => hnp (List.isPrefixOf_iff_prefix.mp hb))
    have ih2 := ih _ hsub htail
    have hstep : nuke_node_modules d (r :: rs) =
        (r.size.getD 0 +
          (nuke_node_modules (d.filter (fun q => !(List.isPrefixOf r.path q))) rs).1,
         (nuke_node_modules (d.filter (fun q => !(List.isPrefixOf r.path q))) rs).2) := by
      rw [nuke_node_modules, hrem]
    constructor
    · rw [hstep]
      simp [ih2.1]
    · intro s hs
      rcases List.mem_cons.mp hs with hs | hs
      · subst hs
        rw [hstep]
        intro hin
        have hmem2 := nuke_disk_subset rs _ s.path hin
        have hflt := (List.mem_filter.mp hmem2).2
        simp only [Bool.not_eq_true'] at hflt
        have hrefl : List.isPrefixOf s.path s.path = true :=
          List.isPrefixOf_iff_prefix.mpr (List.prefix_refl s.path)
        rw [hrefl] at hflt
        cases hflt
      · rw [hstep]
        exact ih2.2 s hs

/-- C5: delete_all never fails outright — it always returns a total; on a
list of records whose paths all exist on disk and lie on pairwise
non-overlapping branches, it removes every recorded directory and returns
the exact sum of the recorded sizes (0 for an unset size); a second call on
the same, now-deleted, list deletes nothing and returns 0. -/
theorem delete_all_sums_then_zero :
    ∀ rs (d : Disk),
      (∀ r ∈ rs, r.path ∈ d) →
      rs.Pairwise (fun a b => ¬ a.path <+: b.path ∧ ¬ b.path <+: a.path) →
      (nuke_node_modules d rs).1 = (rs.map (fun r => r.size.getD 0)).sum ∧
      (∀ r ∈ rs, r.path ∉ (nuke_node_modules d rs).2) ∧
      (nuke_node_modules (nuke_node_modules d rs).2 rs).1 = 0 := by
  intro rs d h hp
  obtain ⟨h1, h2⟩ := nuke_go rs d h hp
  refine ⟨h1, h2, ?_⟩
  rw [nuke_all_missing rs _ h2]

/-- Witness for C5: two sized records on disk; the first call deletes both
and returns 5100, the second call returns 0. -/
theorem delete_all_sums_then_zero_witness :
    (nuke_node_modules [["a", "node_modules"], ["b", "node_modules"]]
        [⟨["a", "node_modules"], some 100⟩,
          ⟨["b", "node_modules"], some 5000⟩]).1 = 5100 ∧
    (nuke_node_modules
        (nuke_node_modules [["a", "node_modules"], ["b", "node_modules"]]
          [⟨["a", "node_modules"], some 100⟩,
            ⟨["b", "node_modules"], some 5000⟩]).2
        [⟨["a", "node_modules"], some 100⟩,
          ⟨["b", "node_modules"], some 5000⟩]).1 = 0 := by
  have h := delete_all_sums_then_zero
    [⟨["a", "node_modules"], some 100⟩, ⟨["b", "node_modules"], some 5000⟩]
    [["a", "node_modules"], ["b", "node_modules"]]
    (by intro r hr; fin_cases hr <;> simp)
    (by
      refine List.pairwise_cons.mpr ⟨?_, List.pairwise_singleton _ _⟩
      intro b hb
      simp only [List.mem_singleton] at hb
      subst hb
      exact ⟨by decide, by decide⟩)
  refine ⟨?_, h.2.2⟩
  rw [h.1]
  simp

/-- Joining an empty task set yields no slots and a zero total. -/
theorem sizeJoin_nil (fsAt : List String → Bool × List Entry)
    (joinFail : Nat → Bool) (k : Nat) :
    sizeJoin fsAt joinFail k [] = ([], 0) := by
  simp [sizeJoin]

/-- Step of the join loop when task k fails to join: the slot keeps its
record and the total gains nothing. -/
theorem sizeJoin_cons_fail (fsAt : List String → Bool × List Entry)
    (joinFail : Nat → Bool) {k : Nat} (hj : joinFail k = true)
    (r : NodeModules) (rs : List NodeModules) :
    sizeJoin fsAt joinFail k (r :: rs) =
      (r :: (sizeJoin fsAt joinFail (k + 1) rs).1,
       (sizeJoin fsAt joinFail (k + 1) rs).2) := by
  simp [sizeJoin, hj]

/-- Step of the join loop when task k joins: the computed size is written
into the slot and added to the total. -/
theorem sizeJoin_cons_ok (fsAt : List String → Bool × List Entry)
    (joinFail : Nat → Bool) {k : Nat} (hj : joinFail k = false)
    (r : NodeModules) (rs : List NodeModules) :
    sizeJoin fsAt joinFail k (r :: rs) =
      ({ r with size := some (size_of (fsAt r.path).1 (fsAt r.path).2) } ::
          (sizeJoin fsAt joinFail (k + 1) rs).1,
       size_of (fsAt r.path).1 (fsAt r.path).2 +
         (sizeJoin fsAt joinFail (k + 1) rs).2) := by
  simp [sizeJoin, hj]

/-- One slot per spawned task: the join loop preserves the record count. -/
theorem sizeJoin_length (fsAt : List String → Bool × List Entry)
    (joinFail : Nat → Bool) :
    ∀ rs k, (sizeJoin fsAt joinFail k rs).1.length = rs.length := by
  intro rs
  induction rs with
  | nil => intro k; simp [sizeJoin_nil]
  | cons r rs ih =>
    intro k
    cases hj : joinFail k with
    | true => rw [sizeJoin_cons_fail fsAt joinFail hj r rs]; simp [ih]
    | false => rw [sizeJoin_cons_ok fsAt joinFail hj r rs]; simp [ih]

/-- Slot characterization of the join loop: slot i keeps its own record,
with the size written exactly when task k + i joined successfully. -/
theorem sizeJoin_lookup (fsAt : List String → Bool × List Entry)
    (joinFail : Nat → Bool) :
    ∀ rs k i, (sizeJoin fsAt joinFail k rs).1.get? i =
      (rs.get? i).map (fun r =>
        if joinFail (k + i) then r
        else { r with
               size := some (size_of (fsAt r.path).1 (fsAt r.path).2) }) := by
  intro rs
  induction rs with
  | nil => intro k i; simp [sizeJoin_nil]
  | cons r rs ih =>
    intro k i
    cases hj : joinFail k with
    | true =>
      rw [sizeJoin_cons_fail fsAt joinFail hj r rs]
      cases i with
      | zero => simp [hj]
      | succ i =>
        simp only [List.get?_cons_succ]
        rw [ih (k + 1) i, show k + 1 + i = k + (i + 1) from by omega]
    | false =>
      rw [sizeJoin_cons_ok fsAt joinFail hj r rs]
      cases i with
      | zero => simp [hj]
      | succ i =>
        simp only [List.get?_cons_succ]
        rw [ih (k + 1) i, show k + 1 + i = k + (i + 1) from by omega]

/-- The join loop total is the sum of the successfully joined results. -/
theorem sizeJoin_total (fsAt : List String → Bool × List Entry)
    (joinFail : Nat → Bool) :
    ∀ rs k, (sizeJoin fsAt joinFail k rs).2 =
      ∑ i : Fin rs.length,
        (if joinFail (k + i.1) then 0
         else size_of (fsAt (rs.get i).path).1 (fsAt (rs.get i).path).2) := by
  intro rs
  induction rs with
  | nil => intro k; simp [sizeJoin_nil]
  | cons r rs ih =>
    intro k
    simp only [List.length_cons]
    rw [Fin.sum_univ_succ]
    have hshift : ∀ i : Fin rs.length, k + ((Fin.succ i) : Fin (rs.length + 1)).1 = k + 1 + i.1 := by
      intro i
      simp [Fin.succ]
      omega
    cases hj : joinFail k with
    | true =>
      rw [sizeJoin_cons_fail fsAt joinFail hj r rs]
      simp only [hj, Nat.add_zero, Fin.val_zero, if_pos, Nat.zero_add]
      rw [ih (k + 1)]
      refine Finset.sum_congr rfl (fun i _ => ?_)
      rw [hshift i]
      simp [List.get]
    | false =>
      rw [sizeJoin_cons_ok fsAt joinFail hj r rs]
      simp only [hj, Nat.add_zero, Fin.val_zero, Bool.false_eq_true, if_neg,
        not_false_eq_true, List.get]
      rw [ih (k + 1)]
      congr 1
      refine Finset.sum_congr rfl (fun i _ => ?_)
      rw [hshift i]

/-- C7: the size orchestration keeps one slot per discovered record (first
conjunct); every slot keeps exactly its own record, with the computed size
written into it, keyed by the original index, exactly when its task joined,
and left unchanged when the join failed (second conjunct); the returned
grand total is the sum of all completed results, a join failure contributing
0 instead of failing the orchestration (third conjunct). -/
theorem calc_sizes_per_index_total :
    ∀ (fsAt : List String → Bool × List Entry) (joinFail : Nat → Bool)
      (records : List NodeModules),
      (calc_node_modules_sizes fsAt joinFail records).1.length =
        records.length ∧
      (∀ i, (calc_node_modules_sizes fsAt joinFail records).1.get? i =
        (records.get? i).map (fun r =>
          if joinFail i then r
          else { r with
                 size := some (size_of (fsAt r.path).1 (fsAt r.path).2) })) ∧
      (calc_node_modules_sizes fsAt joinFail records).2 =
        ∑ i : Fin records.length,
          (if joinFail i.1 then 0
           else size_of (fsAt (records.get i).path).1
             (fsAt (records.get i).path).2) := by
  intro fsAt joinFail records
  refine ⟨sizeJoin_length fsAt joinFail records 0, ?_, ?_⟩
  · intro i
    have := sizeJoin_lookup fsAt joinFail records 0 i
    simpa [calc_node_modules_sizes] using this
  · have := sizeJoin_total fsAt joinFail records 0
    simpa [calc_node_modules_sizes] using this
